import Mathlib

/-!
Verification of the reentrant shared/exclusive lock `RecursiveSharedMutex`
(src/recursive_shared_mutex.h / .cpp) against its natural-language
specification.

The state of one lock instance is embedded shallowly:
the two `uint32_t` counters (`_waitingWriters`, `_writersOwnership`) become
naturals whose increments and decrements are taken modulo `2 ^ 32`; the
atomic `std::thread::id` writer slot becomes an `Option Nat` (with `none`
playing the role of the empty `std::thread::id()`); and the
`std::unordered_map<std::thread::id, uint32_t>` of reader ownership levels
becomes an association list from thread identities to depths.

Two views of the code are developed.

First, each of the five member functions is translated to a sequential
state-transformer (`RecursiveSharedMutex.lock`, `try_lock`, `lock_shared`,
`unlock`, `unlock_shared`): the result `none` marks an execution in which a
debug assertion fires, or in which the spin loops of the function can never
terminate when no other thread runs.  The weak compare-and-swap of the
writer slot is modelled as succeeding exactly when the slot is empty.

Second, for the interleaved behaviour, the bodies of the five functions are
cut at their synchronisation points (critical sections of the bookkeeping
mutex `_mtx`, and the lone compare-and-swap on the atomic writer slot that
happens outside `_mtx`) into atomic actions, giving a labelled transition
relation `Step` between configurations (lock state plus the control point
of every thread), with traces `Trace` and reachability `Reachable`.
-/

/-- Modulus of the `uint32_t` counters of the source. -/
def U32 : Nat := 2 ^ 32

theorem U32_eq : U32 = 4294967296 := by norm_num [U32]

/-- The `uint32_t` increment `++x`. -/
def inc32 (x : Nat) : Nat := (x + 1) % U32

/-- The `uint32_t` decrement `--x` (wraps from `0` to `2 ^ 32 - 1`).
Defined by case split, which keeps terms tractable for unification; the
lemma `dec32_eq` shows it equals the usual additive form
`(x + (U32 - 1)) % U32`. -/
def dec32 : Nat → Nat
  | 0 => U32 - 1
  | x + 1 => x % U32

theorem dec32_eq (x : Nat) : dec32 x = (x + (U32 - 1)) % U32 := by
  cases x with
  | zero =>
    simp only [dec32]
    rw [U32_eq]
  | succ x =>
    simp only [dec32]
    rw [U32_eq]
    omega

/-- Lookup in an association list keyed by thread identity; models both
`_readersOwnership.count(threadId)` (`≠ none` iff the count is nonzero) and
`_readersOwnership[threadId]` reads on existing keys. -/
def alookup {α : Type} (t : Nat) : List (Nat × α) → Option α
  | [] => none
  | (k, v) :: r => if k = t then some v else alookup t r

/-- Apply `f` to the value stored at key `t`; models in-place updates such
as `++_readersOwnership[threadId]` on an existing key. -/
def amodify {α : Type} (t : Nat) (f : α → α) : List (Nat × α) → List (Nat × α)
  | [] => []
  | (k, v) :: r => if k = t then (k, f v) :: r else (k, v) :: amodify t f r

/-- Remove the entry with key `t`; models `_readersOwnership.erase(threadId)`. -/
def aerase {α : Type} (t : Nat) : List (Nat × α) → List (Nat × α)
  | [] => []
  | (k, v) :: r => if k = t then aerase t r else (k, v) :: aerase t r

theorem alookup_amodify_self {α : Type} (t : Nat) (f : α → α)
    (l : List (Nat × α)) (d : α) (h : alookup t l = some d) :
    alookup t (amodify t f l) = some (f d) := by
  induction l with
  | nil => simp [alookup] at h
  | cons p r ih =>
    by_cases hk : p.1 = t
    · simp [alookup, hk] at h
      simp [alookup, amodify, hk, h]
    · simp [alookup, hk] at h
      simp [alookup, amodify, hk]
      exact ih h

theorem alookup_amodify_ne {α : Type} (t u : Nat) (f : α → α)
    (l : List (Nat × α)) (h : u ≠ t) :
    alookup u (amodify t f l) = alookup u l := by
  induction l with
  | nil => simp [amodify]
  | cons p r ih =>
    by_cases hk : p.1 = t
    · subst hk
      simp [alookup, amodify, Ne.symm h]
    · simp only [amodify, if_neg hk, alookup]
      by_cases hu : p.1 = u
      · simp [hu]
      · simp [hu, ih]

theorem alookup_amodify_none {α : Type} (t u : Nat) (f : α → α)
    (l : List (Nat × α)) (h : alookup u l = none) :
    alookup u (amodify t f l) = none := by
  by_cases hu : u = t
  · subst hu
    induction l with
    | nil => simp [amodify, alookup]
    | cons p r ih =>
      by_cases hk : p.1 = u
      · simp [alookup, hk] at h
      · simp [alookup, hk] at h
        simp [alookup, amodify, hk]
        exact ih h
  · rw [alookup_amodify_ne t u f l hu]
    exact h

theorem alookup_aerase_self {α : Type} (t : Nat) (l : List (Nat × α)) :
    alookup t (aerase t l) = none := by
  induction l with
  | nil => simp [aerase, alookup]
  | cons p r ih =>
    by_cases hk : p.1 = t
    · simpa [aerase, hk] using ih
    · simp [aerase, alookup, hk]
      exact ih

theorem alookup_aerase_ne {α : Type} (t u : Nat) (l : List (Nat × α))
    (h : u ≠ t) : alookup u (aerase t l) = alookup u l := by
  induction l with
  | nil => simp [aerase]
  | cons p r ih =>
    by_cases hk : p.1 = t
    · subst hk
      simp [aerase, alookup, Ne.symm h, ih]
    · simp only [aerase, if_neg hk, alookup]
      by_cases hu : p.1 = u
      · simp [hu]
      · simp [hu, ih]

/-- The data members of `RecursiveSharedMutex` (the bookkeeping mutex `_mtx`
itself carries no data and appears only in the atomicity granularity of the
step relation below). -/
structure RecursiveSharedMutex where
  waitingWriters : Nat
  writerThreadId : Option Nat
  writersOwnership : Nat
  readersOwnership : List (Nat × Nat)
deriving DecidableEq, Repr

namespace RecursiveSharedMutex

/-- The constructor: `_waitingWriters(0), _writersOwnership(1)`, default
(empty) writer thread id, empty reader map. -/
def init : RecursiveSharedMutex := ⟨0, none, 1, []⟩

/-- Sequential meaning of `lock()` called by thread `t`:
if the caller already holds the writer slot, bump `_writersOwnership`;
else, if the caller has a reader entry the assertion fires (`none`);
else the call increments `_waitingWriters`, spins on the compare-and-swap
and then on draining the readers, which terminates without other threads
exactly when the slot is empty and the reader map is empty, finally
decrementing `_waitingWriters`; in the remaining cases the call spins
forever (`none`). -/
def lock (t : Nat) (s : RecursiveSharedMutex) : Option RecursiveSharedMutex :=
  if s.writerThreadId = some t then
    some { s with writersOwnership := inc32 s.writersOwnership }
  else if alookup t s.readersOwnership ≠ none then
    none
  else if s.writerThreadId = none ∧ s.readersOwnership = [] then
    some { s with writerThreadId := some t,
                  waitingWriters := dec32 (inc32 s.waitingWriters) }
  else
    none

/-- Meaning of `try_lock()` called by thread `t`: the boolean result and the
new state; total, because the function never blocks. -/
def try_lock (t : Nat) (s : RecursiveSharedMutex) : Bool × RecursiveSharedMutex :=
  if s.writerThreadId = some t then
    (true, { s with writersOwnership := inc32 s.writersOwnership })
  else if s.readersOwnership = [] ∧ s.writerThreadId = none then
    (true, { s with writerThreadId := some t })
  else
    (false, s)

/-- Sequential meaning of `lock_shared()` called by thread `t`: writer
fast path, reader fast path, otherwise the admission loop, which
terminates without other threads exactly when no writer is waiting and
the slot is empty. -/
def lock_shared (t : Nat) (s : RecursiveSharedMutex) : Option RecursiveSharedMutex :=
  if s.writerThreadId = some t then
    some { s with writersOwnership := inc32 s.writersOwnership }
  else
    match alookup t s.readersOwnership with
    | some _ => some { s with readersOwnership := amodify t inc32 s.readersOwnership }
    | none =>
      if s.waitingWriters = 0 ∧ s.writerThreadId = none then
        some { s with readersOwnership := (t, 1) :: s.readersOwnership }
      else
        none

/-- Meaning of `unlock()` called by thread `t`; `none` models the assertion
`std::this_thread::get_id() == _writerThreadId` firing. -/
def unlock (t : Nat) (s : RecursiveSharedMutex) : Option RecursiveSharedMutex :=
  if s.writerThreadId = some t then
    if s.writersOwnership ≠ 1 then
      some { s with writersOwnership := dec32 s.writersOwnership }
    else
      some { s with writerThreadId := none }
  else
    none

/-- Meaning of `unlock_shared()` called by thread `t`; `none` models the assertion
`_readersOwnership.count(threadId) == 1` firing. -/
def unlock_shared (t : Nat) (s : RecursiveSharedMutex) : Option RecursiveSharedMutex :=
  if s.writerThreadId = some t then
    some { s with writersOwnership := dec32 s.writersOwnership }
  else
    match alookup t s.readersOwnership with
    | none => none
    | some d =>
      if d ≠ 1 then
        some { s with readersOwnership := amodify t dec32 s.readersOwnership }
      else
        some { s with readersOwnership := aerase t s.readersOwnership }

end RecursiveSharedMutex

/-- Claim C9 counterexample: the freshly constructed lock does not have all
recursion-depth counters zero, because the constructor initialises
`_writersOwnership` to `1`. -/
theorem init_not_all_counters_zero :
    ¬ (RecursiveSharedMutex.init.waitingWriters = 0 ∧
       RecursiveSharedMutex.init.writersOwnership = 0 ∧
       RecursiveSharedMutex.init.writerThreadId = none ∧
       RecursiveSharedMutex.init.readersOwnership = []) := by
  intro h
  exact absurd h.2.1 (by decide)

/-- Claim C9 (amended): a freshly constructed lock has waiting-writer count
`0`, writer slot empty, reader set empty, and the writer recursion-depth
counter initialised to `1` (the value an incoming owner needs), not `0`. -/
theorem init_state_spec :
    RecursiveSharedMutex.init.waitingWriters = 0 ∧
    RecursiveSharedMutex.init.writerThreadId = none ∧
    RecursiveSharedMutex.init.readersOwnership = [] ∧
    RecursiveSharedMutex.init.writersOwnership = 1 := by
  decide

/-- Claim C3: when the caller already occupies the writer slot, `lock()`
replaces `_writersOwnership` by its `uint32_t` successor and leaves the
reader set, the waiting-writer count and the writer slot unchanged; below
the wrap bound the new depth is exactly the old depth plus one. -/
theorem lock_reentrant_fast_path (t : Nat) (s : RecursiveSharedMutex)
    (h : s.writerThreadId = some t) :
    RecursiveSharedMutex.lock t s =
      some { s with writersOwnership := inc32 s.writersOwnership } ∧
    (s.writersOwnership + 1 < 2 ^ 32 →
      inc32 s.writersOwnership = s.writersOwnership + 1) := by
  constructor
  · simp [RecursiveSharedMutex.lock, h]
  · intro hlt
    have : s.writersOwnership + 1 < U32 := by
      simpa [U32] using hlt
    simp [inc32, Nat.mod_eq_of_lt this]

theorem lock_reentrant_fast_path_witness :
    RecursiveSharedMutex.lock 5 ⟨0, some 5, 3, []⟩ =
      some ⟨0, some 5, 4, []⟩ := by
  have h := (lock_reentrant_fast_path 5 ⟨0, some 5, 3, []⟩ rfl).1
  rw [h]
  decide

/-- Claim C4: for a call by the thread occupying the writer slot, if the
depth is greater than `1` then `unlock()` decrements it by exactly one and
leaves the slot occupied; if the depth equals `1` it clears the slot and
the stored depth remains `1` for the next owner. -/
theorem unlock_spec (t : Nat) (s : RecursiveSharedMutex)
    (hw : s.writerThreadId = some t) (hlt : s.writersOwnership < 2 ^ 32) :
    (1 < s.writersOwnership →
      RecursiveSharedMutex.unlock t s =
        some { s with writersOwnership := s.writersOwnership - 1 }) ∧
    (s.writersOwnership = 1 →
      RecursiveSharedMutex.unlock t s =
        some { s with writerThreadId := none } ∧
      ({ s with writerThreadId := none } :
        RecursiveSharedMutex).writersOwnership = 1) := by
  have hU : s.writersOwnership < U32 := by simpa [U32] using hlt
  constructor
  · intro hgt
    have hne : s.writersOwnership ≠ 1 := by omega
    have hdec : dec32 s.writersOwnership = s.writersOwnership - 1 := by
      rw [U32_eq] at hU
      rw [dec32_eq, U32_eq]
      omega
    simp [RecursiveSharedMutex.unlock, hw, hne, hdec]
  · intro h1
    refine ⟨?_, by simpa using h1⟩
    simp [RecursiveSharedMutex.unlock, hw, h1]

theorem unlock_spec_witness :
    RecursiveSharedMutex.unlock 5 ⟨0, some 5, 3, []⟩ =
      some ⟨0, some 5, 2, []⟩ := by
  have h := (unlock_spec 5 ⟨0, some 5, 3, []⟩ rfl (by norm_num)).1 (by norm_num)
  rw [h]
  decide

/-- Claim C5: `unlock_shared()` called by the slot-occupying writer
decrements the writer depth and touches nothing else; called by any other
thread it requires a reader entry (no entry means the assertion fires,
modelled by `none`), decrements an entry of depth greater than one by
exactly one, and removes an entry of depth one. -/
theorem unlock_shared_spec (t : Nat) (s : RecursiveSharedMutex) :
    (s.writerThreadId = some t →
      RecursiveSharedMutex.unlock_shared t s =
        some { s with writersOwnership := dec32 s.writersOwnership }) ∧
    (s.writerThreadId ≠ some t → alookup t s.readersOwnership = none →
      RecursiveSharedMutex.unlock_shared t s = none) ∧
    (∀ d : Nat, s.writerThreadId ≠ some t →
      alookup t s.readersOwnership = some d → 1 < d →
      RecursiveSharedMutex.unlock_shared t s =
        some { s with readersOwnership := amodify t dec32 s.readersOwnership } ∧
      (d < 2 ^ 32 →
        alookup t (amodify t dec32 s.readersOwnership) = some (d - 1))) ∧
    (s.writerThreadId ≠ some t → alookup t s.readersOwnership = some 1 →
      RecursiveSharedMutex.unlock_shared t s =
        some { s with readersOwnership := aerase t s.readersOwnership } ∧
      alookup t (aerase t s.readersOwnership) = none) := by
  refine ⟨?_, ?_, ?_, ?_⟩
  · intro hw
    simp [RecursiveSharedMutex.unlock_shared, hw]
  · intro hw hnone
    simp [RecursiveSharedMutex.unlock_shared, hw, hnone]
  · intro d hw hsome hgt
    have hne : d ≠ 1 := by omega
    refine ⟨by simp [RecursiveSharedMutex.unlock_shared, hw, hsome, hne], ?_⟩
    intro hlt
    have hdec : dec32 d = d - 1 := by
      have hlt2 : d < 4294967296 := by
        have hpow : (2 : Nat) ^ 32 = 4294967296 := by norm_num
        rw [hpow] at hlt
        exact hlt
      rw [dec32_eq, U32_eq]
      omega
    rw [← hdec]
    exact alookup_amodify_self t dec32 s.readersOwnership d hsome
  · intro hw hsome
    refine ⟨by simp [RecursiveSharedMutex.unlock_shared, hw, hsome], ?_⟩
    exact alookup_aerase_self t s.readersOwnership

theorem unlock_shared_spec_witness :
    RecursiveSharedMutex.unlock_shared 7 ⟨0, none, 1, [(7, 3)]⟩ =
      some ⟨0, none, 1, [(7, 2)]⟩ := by
  have h := ((unlock_shared_spec 7 ⟨0, none, 1, [(7, 3)]⟩).2.2.1 3
    (by decide) (by decide) (by decide)).1
  rw [h]
  decide

/-- Claim C6: `try_lock()` (a total function, hence never blocking)
succeeds and bumps the writer depth when the caller already occupies the
slot; otherwise it succeeds exactly when the reader set is empty and the
compare-and-swap finds the slot empty, failing in every other case while
leaving the state untouched; the waiting-writer count is unchanged in all
cases. -/
theorem try_lock_spec (t : Nat) (s : RecursiveSharedMutex) :
    ((RecursiveSharedMutex.try_lock t s).1 = true ↔
      (s.writerThreadId = some t ∨
        (s.readersOwnership = [] ∧ s.writerThreadId = none))) ∧
    (s.writerThreadId = some t →
      RecursiveSharedMutex.try_lock t s =
        (true, { s with writersOwnership := inc32 s.writersOwnership })) ∧
    (s.writerThreadId ≠ some t → s.readersOwnership = [] →
      s.writerThreadId = none →
      RecursiveSharedMutex.try_lock t s =
        (true, { s with writerThreadId := some t })) ∧
    ((RecursiveSharedMutex.try_lock t s).1 = false →
      (RecursiveSharedMutex.try_lock t s).2 = s) ∧
    (RecursiveSharedMutex.try_lock t s).2.waitingWriters = s.waitingWriters := by
  by_cases hw : s.writerThreadId = some t
  · refine ⟨by simp [RecursiveSharedMutex.try_lock, hw], ?_, ?_, ?_, ?_⟩
    · intro _
      simp [RecursiveSharedMutex.try_lock, hw]
    · intro hne
      exact absurd hw hne
    · intro hfalse
      simp [RecursiveSharedMutex.try_lock, hw] at hfalse
    · simp [RecursiveSharedMutex.try_lock, hw]
  · by_cases hc : s.readersOwnership = [] ∧ s.writerThreadId = none
    · refine ⟨by simp [RecursiveSharedMutex.try_lock, hw, hc], ?_, ?_, ?_, ?_⟩
      · intro h
        exact absurd h hw
      · intro _ _ _
        simp [RecursiveSharedMutex.try_lock, hw, hc]
      · intro hfalse
        simp [RecursiveSharedMutex.try_lock, hw, hc] at hfalse
      · simp [RecursiveSharedMutex.try_lock, hw, hc]
    · have hiff : ¬ (s.writerThreadId = some t ∨
          (s.readersOwnership = [] ∧ s.writerThreadId = none)) := by
        intro h
        rcases h with h | h
        · exact hw h
        · exact hc h
      refine ⟨?_, ?_, ?_, ?_, ?_⟩
      · simp only [RecursiveSharedMutex.try_lock, if_neg hw, if_neg hc]
        simpa using hiff
      · intro h
        exact absurd h hw
      · intro _ hr hn
        exact absurd ⟨hr, hn⟩ hc
      · intro _
        simp [RecursiveSharedMutex.try_lock, hw, hc]
      · simp [RecursiveSharedMutex.try_lock, hw, hc]

/-- Claim C10: a slot-occupying writer at stored depth `1` that calls
`unlock_shared()` drops the depth to `0` while keeping the slot; the
subsequent `unlock()` takes the depth-not-equal-`1` branch and wraps the
32-bit depth from `0` to `2 ^ 32 - 1`, again keeping the slot. -/
theorem unlock_shared_then_unlock_wraps (t : Nat) (s : RecursiveSharedMutex)
    (hw : s.writerThreadId = some t) (hd : s.writersOwnership = 1) :
    RecursiveSharedMutex.unlock_shared t s =
      some { s with writersOwnership := 0 } ∧
    ({ s with writersOwnership := 0 } :
      RecursiveSharedMutex).writerThreadId = some t ∧
    RecursiveSharedMutex.unlock t { s with writersOwnership := 0 } =
      some { s with writersOwnership := 2 ^ 32 - 1 } ∧
    ({ s with writersOwnership := 2 ^ 32 - 1 } :
      RecursiveSharedMutex).writerThreadId = some t := by
  have h0 : dec32 1 = 0 := by decide
  have h1 : dec32 0 = 2 ^ 32 - 1 := by decide
  refine ⟨?_, by simpa using hw, ?_, by simpa using hw⟩
  · simp [RecursiveSharedMutex.unlock_shared, hw, hd, h0]
  · simp [RecursiveSharedMutex.unlock, hw, h1]

theorem unlock_shared_then_unlock_wraps_witness :
    RecursiveSharedMutex.unlock_shared 5 ⟨0, some 5, 1, []⟩ =
      some ⟨0, some 5, 0, []⟩ ∧
    RecursiveSharedMutex.unlock 5 ⟨0, some 5, 0, []⟩ =
      some ⟨0, some 5, 2 ^ 32 - 1, []⟩ := by
  have h := unlock_shared_then_unlock_wraps 5 ⟨0, some 5, 1, []⟩ rfl rfl
  exact ⟨h.1, h.2.2.1⟩

namespace RecursiveSharedMutex

/-- Iterate `lock()` by thread `t`, `n` times (left to right). -/
def lockN (t : Nat) : Nat → RecursiveSharedMutex → Option RecursiveSharedMutex
  | 0, s => some s
  | n + 1, s => (lockN t n s).bind (lock t)

/-- Iterate `unlock()` by thread `t`, `n` times. -/
def unlockN (t : Nat) : Nat → RecursiveSharedMutex → Option RecursiveSharedMutex
  | 0, s => some s
  | n + 1, s => (unlockN t n s).bind (unlock t)

/-- Iterate `lock_shared()` by thread `t`, `n` times. -/
def lock_sharedN (t : Nat) : Nat → RecursiveSharedMutex → Option RecursiveSharedMutex
  | 0, s => some s
  | n + 1, s => (lock_sharedN t n s).bind (lock_shared t)

/-- Iterate `unlock_shared()` by thread `t`, `n` times. -/
def unlock_sharedN (t : Nat) : Nat → RecursiveSharedMutex → Option RecursiveSharedMutex
  | 0, s => some s
  | n + 1, s => (unlock_sharedN t n s).bind (unlock_shared t)

theorem lockN_run (t n : Nat) (h : 1 ≤ n) :
    lockN t n init = some ⟨0, some t, n % U32, []⟩ := by
  induction n with
  | zero => omega
  | succ n ih =>
    by_cases hn : n = 0
    · subst hn
      have h1 : inc32 0 = 1 := by rw [inc32, U32_eq]
      have h2 : dec32 1 = 0 := by decide
      have h3 : (1 : Nat) % U32 = 1 := by rw [U32_eq]
      simp [lockN, lock, init, alookup, h1, h2, h3]
    · have ih2 := ih (by omega)
      rw [lockN, ih2]
      have hmod : inc32 (n % U32) = (n + 1) % U32 := by
        rw [inc32, U32_eq]
        omega
      simp [lock, hmod]

theorem unlockN_run (t k d : Nat) (hk : k < d) (hd : d ≤ U32) :
    unlockN t k ⟨0, some t, d % U32, []⟩ =
      some ⟨0, some t, (d - k) % U32, []⟩ := by
  induction k with
  | zero => simp [unlockN]
  | succ k ih =>
    have ih2 := ih (by omega)
    rw [unlockN, ih2]
    rw [U32_eq] at hd
    have hne : (d - k) % U32 ≠ 1 := by
      rw [U32_eq]
      omega
    have hdec : dec32 ((d - k) % U32) = (d - (k + 1)) % U32 := by
      rw [dec32_eq, U32_eq]
      omega
    simp [unlock, hne, hdec]

theorem unlock_release_one (t : Nat) :
    unlock t ⟨0, some t, 1, []⟩ = some init := by
  simp [unlock, init]

theorem lock_sharedN_run (t n : Nat) (h : 1 ≤ n) :
    lock_sharedN t n init = some ⟨0, none, 1, [(t, n % U32)]⟩ := by
  induction n with
  | zero => omega
  | succ n ih =>
    by_cases hn : n = 0
    · subst hn
      have h3 : (1 : Nat) % U32 = 1 := by rw [U32_eq]
      simp [lock_sharedN, lock_shared, init, alookup, h3]
    · have ih2 := ih (by omega)
      rw [lock_sharedN, ih2]
      have hmod : inc32 (n % U32) = (n + 1) % U32 := by
        rw [inc32, U32_eq]
        omega
      simp [lock_shared, alookup, amodify, hmod]

theorem unlock_sharedN_run (t k d : Nat) (hk : k < d) (hd : d ≤ U32) :
    unlock_sharedN t k ⟨0, none, 1, [(t, d % U32)]⟩ =
      some ⟨0, none, 1, [(t, (d - k) % U32)]⟩ := by
  induction k with
  | zero => simp [unlock_sharedN]
  | succ k ih =>
    have ih2 := ih (by omega)
    rw [unlock_sharedN, ih2]
    rw [U32_eq] at hd
    have hne : (d - k) % U32 ≠ 1 := by
      rw [U32_eq]
      omega
    have hdec : dec32 ((d - k) % U32) = (d - (k + 1)) % U32 := by
      rw [dec32_eq, U32_eq]
      omega
    simp [unlock_shared, alookup, amodify, hne, hdec]

theorem unlock_shared_release_one (t : Nat) :
    unlock_shared t ⟨0, none, 1, [(t, 1)]⟩ = some init := by
  simp [unlock_shared, alookup, aerase, init]

end RecursiveSharedMutex

/-- Claim C7 counterexample: after `2 ^ 32 + 1` nested `lock()` calls from
the unlocked state, the 32-bit depth has wrapped back to `1`, so the very
first `unlock()` call (`K = 1 < N`) already clears the writer slot and
returns the lock to the unlocked state, contradicting the claim for
`N = 2 ^ 32 + 1`. -/
theorem reentrancy_overflow_cex :
    RecursiveSharedMutex.lockN 5 (2 ^ 32 + 1) RecursiveSharedMutex.init =
      some ⟨0, some 5, 1, []⟩ ∧
    RecursiveSharedMutex.unlockN 5 1 ⟨0, some 5, 1, []⟩ =
      some RecursiveSharedMutex.init ∧
    RecursiveSharedMutex.init.writerThreadId ≠ some 5 ∧
    (1 : Nat) < 2 ^ 32 + 1 := by
  refine ⟨?_, ?_, by decide, by norm_num⟩
  · have h := RecursiveSharedMutex.lockN_run 5 (2 ^ 32 + 1) (by norm_num)
    have hmod : (2 ^ 32 + 1) % U32 = 1 := by
      rw [U32_eq]
      norm_num
    rw [hmod] at h
    exact h
  · simp [RecursiveSharedMutex.unlockN, RecursiveSharedMutex.unlock,
      RecursiveSharedMutex.init]

/-- Claim C7 (amended, with the upper bound `N ≤ 2 ^ 32` forced by the
32-bit recursion depth): for `1 ≤ N ≤ 2 ^ 32`, after `N` `lock()` calls
from the unlocked state the caller occupies the writer slot, it still
occupies it after any `K < N` `unlock()` calls, and the `N`-th `unlock()`
returns the lock to the unlocked initial state; the same law holds for `N`
`lock_shared()` calls (a reader-set entry for the caller persists through
any `K < N` `unlock_shared()` calls and disappears, restoring the initial
state, at the `N`-th). -/
theorem reentrancy_round_trip (t N K : Nat)
    (h1 : 1 ≤ N) (h2 : N ≤ U32) (h3 : K < N) :
    RecursiveSharedMutex.lockN t N RecursiveSharedMutex.init =
      some ⟨0, some t, N % U32, []⟩ ∧
    RecursiveSharedMutex.unlockN t K ⟨0, some t, N % U32, []⟩ =
      some ⟨0, some t, (N - K) % U32, []⟩ ∧
    RecursiveSharedMutex.unlockN t N ⟨0, some t, N % U32, []⟩ =
      some RecursiveSharedMutex.init ∧
    RecursiveSharedMutex.lock_sharedN t N RecursiveSharedMutex.init =
      some ⟨0, none, 1, [(t, N % U32)]⟩ ∧
    RecursiveSharedMutex.unlock_sharedN t K ⟨0, none, 1, [(t, N % U32)]⟩ =
      some ⟨0, none, 1, [(t, (N - K) % U32)]⟩ ∧
    RecursiveSharedMutex.unlock_sharedN t N ⟨0, none, 1, [(t, N % U32)]⟩ =
      some RecursiveSharedMutex.init := by
  obtain ⟨M, rfl⟩ : ∃ M, N = M + 1 := ⟨N - 1, by omega⟩
  have hone : (M + 1 - M) % U32 = 1 := by
    rw [U32_eq]
    omega
  refine ⟨RecursiveSharedMutex.lockN_run t (M + 1) h1,
    RecursiveSharedMutex.unlockN_run t K (M + 1) h3 h2, ?_,
    RecursiveSharedMutex.lock_sharedN_run t (M + 1) h1,
    RecursiveSharedMutex.unlock_sharedN_run t K (M + 1) h3 h2, ?_⟩
  · rw [RecursiveSharedMutex.unlockN,
      RecursiveSharedMutex.unlockN_run t M (M + 1) (by omega) h2, hone]
    simpa using RecursiveSharedMutex.unlock_release_one t
  · rw [RecursiveSharedMutex.unlock_sharedN,
      RecursiveSharedMutex.unlock_sharedN_run t M (M + 1) (by omega) h2, hone]
    simpa using RecursiveSharedMutex.unlock_shared_release_one t

theorem reentrancy_round_trip_witness :
    RecursiveSharedMutex.lockN 9 3 RecursiveSharedMutex.init =
      some ⟨0, some 9, 3 % U32, []⟩ ∧
    RecursiveSharedMutex.unlockN 9 1 ⟨0, some 9, 3 % U32, []⟩ =
      some ⟨0, some 9, (3 - 1) % U32, []⟩ ∧
    RecursiveSharedMutex.unlockN 9 3 ⟨0, some 9, 3 % U32, []⟩ =
      some RecursiveSharedMutex.init := by
  have h := reentrancy_round_trip 9 3 1 (by norm_num)
    (by rw [U32_eq]; norm_num) (by norm_num)
  exact ⟨h.1, h.2.1, h.2.2.1⟩

/-- Control point of one thread with respect to the lock: `out` when not
blocked inside an acquisition (a fresh thread, or one whose calls have all
returned), `acquiring` after `lock()` has incremented `_waitingWriters`
and while it spins on the compare-and-swap, `draining` after the
compare-and-swap has claimed the writer slot and while `lock()` waits for
the reader map to empty, `wantShared` while `lock_shared()` spins in its
admission loop. -/
inductive PC where
  | out
  | acquiring
  | draining
  | wantShared
deriving DecidableEq, Repr

/-- Labels naming the atomic actions into which the five operations are
cut at their synchronisation points. -/
inductive Act where
  | lockFast
  | lockAnnounce
  | lockClaim
  | lockComplete
  | tryLockFast
  | tryLockClaim
  | tryLockFail
  | sharedFastWriter
  | sharedFastReader
  | sharedAnnounce
  | sharedGrant
  | unlockDec
  | unlockRelease
  | unlockSharedWriter
  | unlockSharedDec
  | unlockSharedErase
deriving DecidableEq, Repr

/-- A configuration: the lock state plus the control points of all
threads (threads absent from the list are at `PC.out`). -/
structure Cfg where
  rsm : RecursiveSharedMutex
  pcs : List (Nat × PC)
deriving DecidableEq, Repr

/-- Control point of thread `t`. -/
def pcOf (l : List (Nat × PC)) (t : Nat) : PC := (alookup t l).getD PC.out

/-- Set the control point of thread `t`. -/
def setPC (t : Nat) (p : PC) (l : List (Nat × PC)) : List (Nat × PC) :=
  (t, p) :: aerase t l

/-- Is a thread at this control point mid-acquisition of the exclusive
lock, i.e. has it incremented `_waitingWriters` without having yet
decremented it? -/
def PC.midAcq : PC → Bool
  | .acquiring => true
  | .draining => true
  | _ => false

/-- Number of listed threads that are mid-acquisition. -/
def countMidAcq (l : List (Nat × PC)) : Nat :=
  l.countP (fun p => (p.2).midAcq)

/-- The keys of an association list are distinct. -/
def keysNodup {α : Type} (l : List (Nat × α)) : Prop :=
  (l.map Prod.fst).Nodup

/-- One atomic action of the program, by thread `t`.  Each constructor is
one critical section of `_mtx` (or the lone compare-and-swap executed
outside `_mtx`) from the body of one of the five operations; its
hypotheses are the conditions the source checks inside that critical
section, together with the control point the thread must be at. -/
inductive Step : Nat → Act → Cfg → Cfg → Prop where
  | lockFast (t : Nat) (c : Cfg)
      (hpc : pcOf c.pcs t = PC.out)
      (hw : c.rsm.writerThreadId = some t) :
      Step t Act.lockFast c
        ⟨{ c.rsm with writersOwnership := inc32 c.rsm.writersOwnership }, c.pcs⟩
  | lockAnnounce (t : Nat) (c : Cfg)
      (hpc : pcOf c.pcs t = PC.out)
      (hw : c.rsm.writerThreadId ≠ some t)
      (hnr : alookup t c.rsm.readersOwnership = none) :
      Step t Act.lockAnnounce c
        ⟨{ c.rsm with waitingWriters := inc32 c.rsm.waitingWriters },
         setPC t PC.acquiring c.pcs⟩
  | lockClaim (t : Nat) (c : Cfg)
      (hpc : pcOf c.pcs t = PC.acquiring)
      (hw : c.rsm.writerThreadId = none) :
      Step t Act.lockClaim c
        ⟨{ c.rsm with writerThreadId := some t }, setPC t PC.draining c.pcs⟩
  | lockComplete (t : Nat) (c : Cfg)
      (hpc : pcOf c.pcs t = PC.draining)
      (hr : c.rsm.readersOwnership = []) :
      Step t Act.lockComplete c
        ⟨{ c.rsm with waitingWriters := dec32 c.rsm.waitingWriters },
         setPC t PC.out c.pcs⟩
  | tryLockFast (t : Nat) (c : Cfg)
      (hpc : pcOf c.pcs t = PC.out)
      (hw : c.rsm.writerThreadId = some t) :
      Step t Act.tryLockFast c
        ⟨{ c.rsm with writersOwnership := inc32 c.rsm.writersOwnership }, c.pcs⟩
  | tryLockClaim (t : Nat) (c : Cfg)
      (hpc : pcOf c.pcs t = PC.out)
      (hw : c.rsm.writerThreadId ≠ some t)
      (hr : c.rsm.readersOwnership = [])
      (he : c.rsm.writerThreadId = none) :
      Step t Act.tryLockClaim c
        ⟨{ c.rsm with writerThreadId := some t }, c.pcs⟩
  | tryLockFail (t : Nat) (c : Cfg)
      (hpc : pcOf c.pcs t = PC.out)
      (hw : c.rsm.writerThreadId ≠ some t)
      (hf : ¬ (c.rsm.readersOwnership = [] ∧ c.rsm.writerThreadId = none)) :
      Step t Act.tryLockFail c c
  | sharedFastWriter (t : Nat) (c : Cfg)
      (hpc : pcOf c.pcs t = PC.out)
      (hw : c.rsm.writerThreadId = some t) :
      Step t Act.sharedFastWriter c
        ⟨{ c.rsm with writersOwnership := inc32 c.rsm.writersOwnership }, c.pcs⟩
  | sharedFastReader (t : Nat) (c : Cfg)
      (hpc : pcOf c.pcs t = PC.out)
      (hw : c.rsm.writerThreadId ≠ some t)
      (hr : alookup t c.rsm.readersOwnership ≠ none) :
      Step t Act.sharedFastReader c
        ⟨{ c.rsm with readersOwnership := amodify t inc32 c.rsm.readersOwnership },
         c.pcs⟩
  | sharedAnnounce (t : Nat) (c : Cfg)
      (hpc : pcOf c.pcs t = PC.out)
      (hw : c.rsm.writerThreadId ≠ some t)
      (hr : alookup t c.rsm.readersOwnership = none) :
      Step t Act.sharedAnnounce c ⟨c.rsm, setPC t PC.wantShared c.pcs⟩
  | sharedGrant (t : Nat) (c : Cfg)
      (hpc : pcOf c.pcs t = PC.wantShared)
      (hww : c.rsm.waitingWriters = 0)
      (hw : c.rsm.writerThreadId = none) :
      Step t Act.sharedGrant c
        ⟨{ c.rsm with readersOwnership := (t, 1) :: c.rsm.readersOwnership },
         setPC t PC.out c.pcs⟩
  | unlockDec (t : Nat) (c : Cfg)
      (hpc : pcOf c.pcs t = PC.out)
      (hw : c.rsm.writerThreadId = some t)
      (hd : c.rsm.writersOwnership ≠ 1) :
      Step t Act.unlockDec c
        ⟨{ c.rsm with writersOwnership := dec32 c.rsm.writersOwnership }, c.pcs⟩
  | unlockRelease (t : Nat) (c : Cfg)
      (hpc : pcOf c.pcs t = PC.out)
      (hw : c.rsm.writerThreadId = some t)
      (hd : c.rsm.writersOwnership = 1) :
      Step t Act.unlockRelease c
        ⟨{ c.rsm with writerThreadId := none }, c.pcs⟩
  | unlockSharedWriter (t : Nat) (c : Cfg)
      (hpc : pcOf c.pcs t = PC.out)
      (hw : c.rsm.writerThreadId = some t) :
      Step t Act.unlockSharedWriter c
        ⟨{ c.rsm with writersOwnership := dec32 c.rsm.writersOwnership }, c.pcs⟩
  | unlockSharedDec (t : Nat) (c : Cfg) (d : Nat)
      (hpc : pcOf c.pcs t = PC.out)
      (hw : c.rsm.writerThreadId ≠ some t)
      (hr : alookup t c.rsm.readersOwnership = some d)
      (hd : d ≠ 1) :
      Step t Act.unlockSharedDec c
        ⟨{ c.rsm with readersOwnership := amodify t dec32 c.rsm.readersOwnership },
         c.pcs⟩
  | unlockSharedErase (t : Nat) (c : Cfg)
      (hpc : pcOf c.pcs t = PC.out)
      (hw : c.rsm.writerThreadId ≠ some t)
      (hr : alookup t c.rsm.readersOwnership = some 1) :
      Step t Act.unlockSharedErase c
        ⟨{ c.rsm with readersOwnership := aerase t c.rsm.readersOwnership },
         c.pcs⟩

/-- A finite interleaving: a list of (thread, action) labels relating a
start configuration to an end configuration. -/
inductive Trace : Cfg → List (Nat × Act) → Cfg → Prop where
  | nil (c : Cfg) : Trace c [] c
  | cons {t : Nat} {a : Act} {c c' c'' : Cfg} {ls : List (Nat × Act)} :
      Step t a c c' → Trace c' ls c'' → Trace c ((t, a) :: ls) c''

/-- The initial configuration: a freshly constructed lock, every thread
at `PC.out`. -/
def initCfg : Cfg := ⟨RecursiveSharedMutex.init, []⟩

/-- A configuration reachable from the initial one by some interleaving
of the five operations. -/
def Reachable (c : Cfg) : Prop := ∃ ls, Trace initCfg ls c

/-- Exclusive ownership with acquisition complete: the writer slot holds
`t`, the reader set is empty, and `t` is not blocked mid-operation. -/
def holdsExclusive (c : Cfg) (t : Nat) : Prop :=
  c.rsm.writerThreadId = some t ∧ c.rsm.readersOwnership = [] ∧
  pcOf c.pcs t = PC.out

/-- Shared ownership: the thread has a reader-set entry. -/
def holdsShared (c : Cfg) (t : Nat) : Prop :=
  alookup t c.rsm.readersOwnership ≠ none

theorem alookup_mem {α : Type} (t : Nat) (l : List (Nat × α)) (v : α)
    (h : alookup t l = some v) : (t, v) ∈ l := by
  induction l with
  | nil => simp [alookup] at h
  | cons p r ih =>
    by_cases hk : p.1 = t
    · simp [alookup, hk] at h
      subst hk
      subst h
      exact List.mem_cons_self p r
    · simp [alookup, hk] at h
      exact List.mem_cons_of_mem p (ih h)

theorem alookup_aerase_none {α : Type} (t u : Nat) (l : List (Nat × α))
    (h : alookup u l = none) : alookup u (aerase t l) = none := by
  by_cases hu : u = t
  · subst hu
    exact alookup_aerase_self u l
  · rw [alookup_aerase_ne t u l hu]
    exact h

theorem aerase_of_not_mem {α : Type} (t : Nat) (l : List (Nat × α))
    (h : t ∉ l.map Prod.fst) : aerase t l = l := by
  induction l with
  | nil => simp [aerase]
  | cons p r ih =>
    simp only [List.map_cons, List.mem_cons] at h
    push_neg at h
    rw [aerase, if_neg (fun he => h.1 he.symm), ih h.2]

theorem mem_keys_aerase {α : Type} (t u : Nat) (l : List (Nat × α))
    (h : u ∈ (aerase t l).map Prod.fst) : u ∈ l.map Prod.fst := by
  induction l with
  | nil => simpa [aerase] using h
  | cons p r ih =>
    by_cases hk : p.1 = t
    · rw [aerase, if_pos hk] at h
      exact List.mem_cons_of_mem p.1 (ih h)
    · rw [aerase, if_neg hk] at h
      simp only [List.map_cons, List.mem_cons] at h ⊢
      rcases h with h | h
      · exact Or.inl h
      · exact Or.inr (ih h)

theorem not_mem_keys_aerase {α : Type} (t : Nat) (l : List (Nat × α)) :
    t ∉ (aerase t l).map Prod.fst := by
  induction l with
  | nil => simp [aerase]
  | cons p r ih =>
    by_cases hk : p.1 = t
    · rw [aerase, if_pos hk]
      exact ih
    · rw [aerase, if_neg hk]
      simp only [List.map_cons, List.mem_cons]
      rintro (h | h)
      · exact hk h.symm
      · exact ih h

theorem keysNodup_aerase {α : Type} (t : Nat) (l : List (Nat × α))
    (h : keysNodup l) : keysNodup (aerase t l) := by
  induction l with
  | nil => simpa [aerase] using h
  | cons p r ih =>
    rw [keysNodup, List.map_cons, List.nodup_cons] at h
    by_cases hk : p.1 = t
    · rw [aerase, if_pos hk]
      exact ih h.2
    · rw [aerase, if_neg hk]
      rw [keysNodup, List.map_cons, List.nodup_cons]
      exact ⟨fun hm => h.1 (mem_keys_aerase t p.1 r hm), ih h.2⟩

theorem keysNodup_setPC (t : Nat) (p : PC) (l : List (Nat × PC))
    (h : keysNodup l) : keysNodup (setPC t p l) := by
  rw [setPC, keysNodup, List.map_cons, List.nodup_cons]
  exact ⟨not_mem_keys_aerase t l, keysNodup_aerase t l h⟩

theorem countMidAcq_aerase (t : Nat) (l : List (Nat × PC)) (h : keysNodup l) :
    countMidAcq l =
      countMidAcq (aerase t l) + (if (pcOf l t).midAcq then 1 else 0) := by
  induction l with
  | nil => simp [countMidAcq, aerase, pcOf, alookup, PC.midAcq]
  | cons p r ih =>
    obtain ⟨k, v⟩ := p
    rw [keysNodup, List.map_cons, List.nodup_cons] at h
    by_cases hk : k = t
    · subst hk
      rw [aerase, if_pos rfl, aerase_of_not_mem k r h.1]
      have hpc : pcOf ((k, v) :: r) k = v := by simp [pcOf, alookup]
      rw [hpc]
      simp [countMidAcq, List.countP_cons]
    · rw [aerase, if_neg hk]
      have hpc : pcOf ((k, v) :: r) t = pcOf r t := by simp [pcOf, alookup, hk]
      rw [hpc]
      have h2 := ih h.2
      simp only [countMidAcq, List.countP_cons] at h2 ⊢
      omega

theorem countMidAcq_setPC (t : Nat) (p : PC) (l : List (Nat × PC)) :
    countMidAcq (setPC t p l) =
      countMidAcq (aerase t l) + (if p.midAcq then 1 else 0) := by
  simp [setPC, countMidAcq, List.countP_cons]

/-- Bookkeeping invariant tying `_waitingWriters` to the number of
threads that are mid-acquisition. -/
def WWInv (c : Cfg) : Prop :=
  keysNodup c.pcs ∧ c.rsm.waitingWriters = countMidAcq c.pcs % U32

theorem wwInv_step {u : Nat} {a : Act} {c c' : Cfg}
    (h : WWInv c) (hs : Step u a c c') : WWInv c' := by
  obtain ⟨hnd, hww⟩ := h
  cases hs with
  | lockFast _ hpc hw => exact ⟨hnd, hww⟩
  | lockAnnounce _ hpc hw hnr =>
    refine ⟨keysNodup_setPC u PC.acquiring c.pcs hnd, ?_⟩
    have he := countMidAcq_aerase u c.pcs hnd
    rw [hpc] at he
    have hsp := countMidAcq_setPC u PC.acquiring c.pcs
    simp [PC.midAcq] at he hsp
    show inc32 c.rsm.waitingWriters = countMidAcq (setPC u PC.acquiring c.pcs) % U32
    rw [hsp, hww, he, inc32, U32_eq]
    omega
  | lockClaim _ hpc hw =>
    refine ⟨keysNodup_setPC u PC.draining c.pcs hnd, ?_⟩
    have he := countMidAcq_aerase u c.pcs hnd
    rw [hpc] at he
    have hsp := countMidAcq_setPC u PC.draining c.pcs
    simp [PC.midAcq] at he hsp
    show c.rsm.waitingWriters = countMidAcq (setPC u PC.draining c.pcs) % U32
    rw [hsp, hww, he]
  | lockComplete _ hpc hr =>
    refine ⟨keysNodup_setPC u PC.out c.pcs hnd, ?_⟩
    have he := countMidAcq_aerase u c.pcs hnd
    rw [hpc] at he
    have hsp := countMidAcq_setPC u PC.out c.pcs
    simp [PC.midAcq] at he hsp
    show dec32 c.rsm.waitingWriters = countMidAcq (setPC u PC.out c.pcs) % U32
    rw [hsp, hww, he, dec32_eq, U32_eq]
    omega
  | tryLockFast _ hpc hw => exact ⟨hnd, hww⟩
  | tryLockClaim _ hpc hw hr he => exact ⟨hnd, hww⟩
  | tryLockFail _ hpc hw hf => exact ⟨hnd, hww⟩
  | sharedFastWriter _ hpc hw => exact ⟨hnd, hww⟩
  | sharedFastReader _ hpc hw hr => exact ⟨hnd, hww⟩
  | sharedAnnounce _ hpc hw hr =>
    refine ⟨keysNodup_setPC u PC.wantShared c.pcs hnd, ?_⟩
    have he := countMidAcq_aerase u c.pcs hnd
    rw [hpc] at he
    have hsp := countMidAcq_setPC u PC.wantShared c.pcs
    simp [PC.midAcq] at he hsp
    show c.rsm.waitingWriters = countMidAcq (setPC u PC.wantShared c.pcs) % U32
    rw [hsp, hww, he]
  | sharedGrant _ hpc hww2 hw =>
    refine ⟨keysNodup_setPC u PC.out c.pcs hnd, ?_⟩
    have he := countMidAcq_aerase u c.pcs hnd
    rw [hpc] at he
    have hsp := countMidAcq_setPC u PC.out c.pcs
    simp [PC.midAcq] at he hsp
    show c.rsm.waitingWriters = countMidAcq (setPC u PC.out c.pcs) % U32
    rw [hsp, hww, he]
  | unlockDec _ hpc hw hd => exact ⟨hnd, hww⟩
  | unlockRelease _ hpc hw hd => exact ⟨hnd, hww⟩
  | unlockSharedWriter _ hpc hw => exact ⟨hnd, hww⟩
  | unlockSharedDec _ d hpc hw hr hd => exact ⟨hnd, hww⟩
  | unlockSharedErase _ hpc hw hr => exact ⟨hnd, hww⟩

theorem wwInv_trace {c : Cfg} {ls : List (Nat × Act)} {c' : Cfg}
    (ht : Trace c ls c') : WWInv c → WWInv c' := by
  induction ht with
  | nil => exact fun h => h
  | cons hs ht ih => exact fun h => ih (wwInv_step h hs)

theorem reachable_wwInv (c : Cfg) (h : Reachable c) : WWInv c := by
  obtain ⟨ls, ht⟩ := h
  refine wwInv_trace ht ⟨?_, ?_⟩
  · simp [initCfg, keysNodup]
  · simp [initCfg, countMidAcq, RecursiveSharedMutex.init]

/-- Claim C1: in every reachable configuration of the interleaving
semantics, no two distinct threads hold exclusive ownership (writer slot
set to them, reader set empty, acquisition complete), and no thread holds
exclusive ownership while another thread holds shared ownership (has a
reader-set entry). -/
theorem mutual_exclusion (c : Cfg) (hr : Reachable c) (t u : Nat)
    (hne : t ≠ u) :
    ¬ (holdsExclusive c t ∧ holdsExclusive c u) ∧
    ¬ (holdsExclusive c t ∧ holdsShared c u) := by
  constructor
  · rintro ⟨⟨h1, -, -⟩, ⟨h2, -, -⟩⟩
    rw [h1] at h2
    exact hne (Option.some.inj h2)
  · rintro ⟨⟨-, hempty, -⟩, hsh⟩
    rw [holdsShared, hempty] at hsh
    exact hsh rfl

theorem mutual_exclusion_witness :
    ¬ (holdsExclusive initCfg 0 ∧ holdsExclusive initCfg 1) ∧
    ¬ (holdsExclusive initCfg 0 ∧ holdsShared initCfg 1) :=
  mutual_exclusion initCfg ⟨[], Trace.nil initCfg⟩ 0 1 (by decide)

/-- Claim C2 (amended with the thread-count bound forced by the 32-bit
waiting-writer counter): whenever a step of the interleaving semantics
grants new shared ownership to a thread `t` that had no reader-set
entry, the state before the step has waiting-writer count `0` and an
empty writer slot; moreover, provided fewer than `2 ^ 32` threads are
recorded in the configuration (so that the `uint32_t` waiting-writer
counter cannot have wrapped), no thread is mid-acquisition in that state
— hence from the moment a thread increments the waiting-writer count in
`lock()` until its acquisition completes, no new shared ownership is
granted. -/
theorem lock_shared_admission (c c' : Cfg) (u t w : Nat) (a : Act)
    (hr : Reachable c) (hs : Step u a c c')
    (hnew : alookup t c.rsm.readersOwnership = none)
    (hgain : alookup t c'.rsm.readersOwnership ≠ none) :
    (c.rsm.waitingWriters = 0 ∧ c.rsm.writerThreadId = none) ∧
    (c.pcs.length < 2 ^ 32 → (pcOf c.pcs w).midAcq = false) := by
  cases hs with
  | lockFast _ hpc hw => exact absurd hnew hgain
  | lockAnnounce _ hpc hw hnr => exact absurd hnew hgain
  | lockClaim _ hpc hw => exact absurd hnew hgain
  | lockComplete _ hpc hr2 => exact absurd hnew hgain
  | tryLockFast _ hpc hw => exact absurd hnew hgain
  | tryLockClaim _ hpc hw hr2 he => exact absurd hnew hgain
  | tryLockFail _ hpc hw hf => exact absurd hnew hgain
  | sharedFastWriter _ hpc hw => exact absurd hnew hgain
  | sharedFastReader _ hpc hw hr2 =>
    exact absurd (alookup_amodify_none u t inc32 c.rsm.readersOwnership hnew) hgain
  | sharedAnnounce _ hpc hw hr2 => exact absurd hnew hgain
  | unlockDec _ hpc hw hd => exact absurd hnew hgain
  | unlockRelease _ hpc hw hd => exact absurd hnew hgain
  | unlockSharedWriter _ hpc hw => exact absurd hnew hgain
  | unlockSharedDec _ d hpc hw hr2 hd =>
    exact absurd (alookup_amodify_none u t dec32 c.rsm.readersOwnership hnew) hgain
  | unlockSharedErase _ hpc hw hr2 =>
    exact absurd (alookup_aerase_none u t c.rsm.readersOwnership hnew) hgain
  | sharedGrant _ hpc hww hw =>
    refine ⟨⟨hww, hw⟩, ?_⟩
    intro hlen
    obtain ⟨hnd, hwwinv⟩ := reachable_wwInv c hr
    have hle : countMidAcq c.pcs ≤ c.pcs.length := by
      rw [countMidAcq]
      exact List.countP_le_length _
    have hcnt : countMidAcq c.pcs = 0 := by
      rw [hww] at hwwinv
      rw [U32_eq] at hwwinv
      have hpow : (2 : Nat) ^ 32 = 4294967296 := by norm_num
      rw [hpow] at hlen
      omega
    cases hq : alookup w c.pcs with
    | none => simp [pcOf, hq, PC.midAcq]
    | some p =>
      have hmem := alookup_mem w c.pcs p hq
      have hnp := List.countP_eq_zero.mp hcnt _ hmem
      have hres : pcOf c.pcs w = p := by simp [pcOf, hq]
      rw [hres]
      simpa using hnp

theorem lock_shared_admission_witness :
    (Cfg.mk RecursiveSharedMutex.init [(7, PC.wantShared)]).rsm.waitingWriters = 0 ∧
    (Cfg.mk RecursiveSharedMutex.init [(7, PC.wantShared)]).rsm.writerThreadId = none :=
  (lock_shared_admission
    ⟨RecursiveSharedMutex.init, [(7, PC.wantShared)]⟩
    ⟨⟨0, none, 1, [(7, 1)]⟩, [(7, PC.out)]⟩
    7 7 3 Act.sharedGrant
    ⟨[(7, Act.sharedAnnounce)],
      Trace.cons (Step.sharedAnnounce 7 initCfg rfl (by decide) rfl)
        (Trace.nil ⟨RecursiveSharedMutex.init, [(7, PC.wantShared)]⟩)⟩
    (Step.sharedGrant 7 ⟨RecursiveSharedMutex.init, [(7, PC.wantShared)]⟩ rfl rfl rfl)
    rfl (by decide)).1

/-- Depth bounds after `n` steps: every reader-set entry and the stored
writer depth lie in `[1, n + 1]` (counters start at `1` and each step
adds at most `1`). -/
def DepthInv (n : Nat) (c : Cfg) : Prop :=
  (∀ t d, alookup t c.rsm.readersOwnership = some d → 1 ≤ d ∧ d ≤ n + 1) ∧
  1 ≤ c.rsm.writersOwnership ∧ c.rsm.writersOwnership ≤ n + 1

theorem depthInv_mono {m n : Nat} (h : m ≤ n) {c : Cfg}
    (hd : DepthInv m c) : DepthInv n c := by
  obtain ⟨h1, h2, h3⟩ := hd
  refine ⟨fun t d hx => ⟨(h1 t d hx).1, ?_⟩, h2, by omega⟩
  have := (h1 t d hx).2
  omega

theorem inc32_lt (x : Nat) (h : x + 1 < U32) : inc32 x = x + 1 := by
  rw [inc32]
  exact Nat.mod_eq_of_lt h

theorem dec32_pred (x : Nat) (h1 : 1 ≤ x) (h2 : x ≤ U32) :
    dec32 x = x - 1 := by
  cases x with
  | zero => omega
  | succ y =>
    have hy : y < U32 := by omega
    simp only [dec32]
    simpa using Nat.mod_eq_of_lt hy

theorem depthInv_step {u : Nat} {a : Act} {c c' : Cfg} (n : Nat)
    (h : DepthInv n c) (hs : Step u a c c')
    (hx : a ≠ Act.unlockSharedWriter) (hn : n + 2 < U32) :
    DepthInv (n + 1) c' := by
  obtain ⟨hrd, hw1, hw2⟩ := h
  cases hs with
  | lockFast _ hpc hw =>
    refine ⟨fun t d hq => ?_, ?_, ?_⟩
    · have := hrd t d hq
      omega
    · show 1 ≤ inc32 c.rsm.writersOwnership
      rw [inc32_lt c.rsm.writersOwnership (by omega)]
      omega
    · show inc32 c.rsm.writersOwnership ≤ n + 1 + 1
      rw [inc32_lt c.rsm.writersOwnership (by omega)]
      omega
  | lockAnnounce _ hpc hw hnr =>
    refine ⟨fun t d hq => ?_,
      by show 1 ≤ c.rsm.writersOwnership; omega,
      by show c.rsm.writersOwnership ≤ n + 1 + 1; omega⟩
    have := hrd t d hq
    omega
  | lockClaim _ hpc hw =>
    refine ⟨fun t d hq => ?_,
      by show 1 ≤ c.rsm.writersOwnership; omega,
      by show c.rsm.writersOwnership ≤ n + 1 + 1; omega⟩
    have := hrd t d hq
    omega
  | lockComplete _ hpc hr2 =>
    refine ⟨fun t d hq => ?_,
      by show 1 ≤ c.rsm.writersOwnership; omega,
      by show c.rsm.writersOwnership ≤ n + 1 + 1; omega⟩
    have := hrd t d hq
    omega
  | tryLockFast _ hpc hw =>
    refine ⟨fun t d hq => ?_, ?_, ?_⟩
    · have := hrd t d hq
      omega
    · show 1 ≤ inc32 c.rsm.writersOwnership
      rw [inc32_lt c.rsm.writersOwnership (by omega)]
      omega
    · show inc32 c.rsm.writersOwnership ≤ n + 1 + 1
      rw [inc32_lt c.rsm.writersOwnership (by omega)]
      omega
  | tryLockClaim _ hpc hw hr2 he =>
    refine ⟨fun t d hq => ?_,
      by show 1 ≤ c.rsm.writersOwnership; omega,
      by show c.rsm.writersOwnership ≤ n + 1 + 1; omega⟩
    have := hrd t d hq
    omega
  | tryLockFail _ hpc hw hf =>
    exact depthInv_mono (by omega) ⟨hrd, hw1, hw2⟩
  | sharedFastWriter _ hpc hw =>
    refine ⟨fun t d hq => ?_, ?_, ?_⟩
    · have := hrd t d hq
      omega
    · show 1 ≤ inc32 c.rsm.writersOwnership
      rw [inc32_lt c.rsm.writersOwnership (by omega)]
      omega
    · show inc32 c.rsm.writersOwnership ≤ n + 1 + 1
      rw [inc32_lt c.rsm.writersOwnership (by omega)]
      omega
  | sharedFastReader _ hpc hw hr2 =>
    refine ⟨fun t d hq => ?_,
      by show 1 ≤ c.rsm.writersOwnership; omega,
      by show c.rsm.writersOwnership ≤ n + 1 + 1; omega⟩
    by_cases ht : t = u
    · subst ht
      cases hq0 : alookup t c.rsm.readersOwnership with
      | none => exact absurd hq0 hr2
      | some d0 =>
        have hself := alookup_amodify_self t inc32 c.rsm.readersOwnership d0 hq0
        have hqq : alookup t (amodify t inc32 c.rsm.readersOwnership) = some d :=
          hq
        rw [hself] at hqq
        have hd0 := hrd t d0 hq0
        have hinc : inc32 d0 = d0 + 1 := inc32_lt d0 (by omega)
        have hdd : d = d0 + 1 := by
          rw [hinc] at hqq
          exact (Option.some.inj hqq).symm
        omega
    · have hqq : alookup t (amodify u inc32 c.rsm.readersOwnership) = some d :=
        hq
      rw [alookup_amodify_ne u t inc32 c.rsm.readersOwnership ht] at hqq
      have := hrd t d hqq
      omega
  | sharedAnnounce _ hpc hw hr2 =>
    refine ⟨fun t d hq => ?_,
      by show 1 ≤ c.rsm.writersOwnership; omega,
      by show c.rsm.writersOwnership ≤ n + 1 + 1; omega⟩
    have := hrd t d hq
    omega
  | sharedGrant _ hpc hww hw =>
    refine ⟨fun t d hq => ?_,
      by show 1 ≤ c.rsm.writersOwnership; omega,
      by show c.rsm.writersOwnership ≤ n + 1 + 1; omega⟩
    have hqq : alookup t ((u, 1) :: c.rsm.readersOwnership) = some d := hq
    rw [alookup] at hqq
    by_cases hu : u = t
    · rw [if_pos hu] at hqq
      have : d = 1 := (Option.some.inj hqq).symm
      omega
    · rw [if_neg hu] at hqq
      have := hrd t d hqq
      omega
  | unlockDec _ hpc hw hd =>
    refine ⟨fun t d hq => ?_, ?_, ?_⟩
    · have := hrd t d hq
      omega
    · show 1 ≤ dec32 c.rsm.writersOwnership
      rw [dec32_pred c.rsm.writersOwnership (by omega) (by omega)]
      omega
    · show dec32 c.rsm.writersOwnership ≤ n + 1 + 1
      rw [dec32_pred c.rsm.writersOwnership (by omega) (by omega)]
      omega
  | unlockRelease _ hpc hw hd =>
    refine ⟨fun t d hq => ?_,
      by show 1 ≤ c.rsm.writersOwnership; omega,
      by show c.rsm.writersOwnership ≤ n + 1 + 1; omega⟩
    have := hrd t d hq
    omega
  | unlockSharedWriter _ hpc hw => exact absurd rfl hx
  | unlockSharedDec _ d0 hpc hw hr2 hd0 =>
    refine ⟨fun t d hq => ?_,
      by show 1 ≤ c.rsm.writersOwnership; omega,
      by show c.rsm.writersOwnership ≤ n + 1 + 1; omega⟩
    by_cases ht : t = u
    · subst ht
      have hself := alookup_amodify_self t dec32 c.rsm.readersOwnership d0 hr2
      have hqq : alookup t (amodify t dec32 c.rsm.readersOwnership) = some d :=
        hq
      rw [hself] at hqq
      have hb := hrd t d0 hr2
      have hdec : dec32 d0 = d0 - 1 := dec32_pred d0 (by omega) (by omega)
      have hdd : d = d0 - 1 := by
        rw [hdec] at hqq
        exact (Option.some.inj hqq).symm
      omega
    · have hqq : alookup t (amodify u dec32 c.rsm.readersOwnership) = some d :=
        hq
      rw [alookup_amodify_ne u t dec32 c.rsm.readersOwnership ht] at hqq
      have := hrd t d hqq
      omega
  | unlockSharedErase _ hpc hw hr2 =>
    refine ⟨fun t d hq => ?_,
      by show 1 ≤ c.rsm.writersOwnership; omega,
      by show c.rsm.writersOwnership ≤ n + 1 + 1; omega⟩
    by_cases ht : t = u
    · subst ht
      have hqq : alookup t (aerase t c.rsm.readersOwnership) = some d := hq
      rw [alookup_aerase_self t c.rsm.readersOwnership] at hqq
      exact absurd hqq (by simp)
    · have hqq : alookup t (aerase u c.rsm.readersOwnership) = some d := hq
      rw [alookup_aerase_ne u t c.rsm.readersOwnership ht] at hqq
      have := hrd t d hqq
      omega

theorem depthInv_trace {c : Cfg} {ls : List (Nat × Act)} {c' : Cfg}
    (ht : Trace c ls c') :
    ∀ n, DepthInv n c → (∀ p ∈ ls, p.2 ≠ Act.unlockSharedWriter) →
      n + ls.length + 1 < U32 → DepthInv (n + ls.length) c' := by
  induction ht with
  | nil =>
    intro n h _ _
    simpa using h
  | @cons t a c c2 ls c3 hs ht2 ih =>
    intro n h hx hlen
    have ha : a ≠ Act.unlockSharedWriter := by
      have := hx (t, a) (List.mem_cons_self _ _)
      simpa using this
    simp only [List.length_cons] at hlen
    have hstep := depthInv_step n h hs ha (by omega)
    have hrest := ih (n + 1) hstep
      (fun p hp => hx p (List.mem_cons_of_mem _ hp)) (by omega)
    rw [List.length_cons]
    exact depthInv_mono (by omega) hrest

/-- Claim C8 (amended): after every interleaving from the initial
configuration in which no thread calls `unlock_shared()` while occupying
the writer slot, and whose length is small enough that no 32-bit depth
counter can wrap, every reader-set entry stores a depth at least `1` and
the stored writer recursion depth is at least `1` — the value `0` is
never stored for an existing entity. -/
theorem depth_invariant (ls : List (Nat × Act)) (c : Cfg)
    (ht : Trace initCfg ls c)
    (hx : ∀ p ∈ ls, p.2 ≠ Act.unlockSharedWriter)
    (hlen : ls.length + 1 < 2 ^ 32) :
    (∀ t d, alookup t c.rsm.readersOwnership = some d → 1 ≤ d) ∧
    1 ≤ c.rsm.writersOwnership := by
  have h0 : DepthInv 0 initCfg := by
    refine ⟨fun t d hq => ?_, by decide, by decide⟩
    exact absurd hq (by simp [initCfg, RecursiveSharedMutex.init, alookup])
  have h := depthInv_trace ht 0 h0 hx (by
    rw [U32_eq]
    have hpow : (2 : Nat) ^ 32 = 4294967296 := by norm_num
    rw [hpow] at hlen
    omega)
  exact ⟨fun t d hq => (h.1 t d hq).1, h.2.1⟩

theorem depth_invariant_witness :
    1 ≤ initCfg.rsm.writersOwnership :=
  (depth_invariant [] initCfg (Trace.nil initCfg) (by simp) (by norm_num)).2

/-- Claim C8 counterexample: a four-step interleaving — thread `5` runs
`lock()` to completion and then calls `unlock_shared()` — reaches a
configuration in which thread `5` still occupies the writer slot with
acquisition complete, yet the stored writer recursion depth is `0`. -/
theorem depth_zero_reachable :
    Trace initCfg
      [(5, Act.lockAnnounce), (5, Act.lockClaim),
       (5, Act.lockComplete), (5, Act.unlockSharedWriter)]
      ⟨⟨0, some 5, 0, []⟩, [(5, PC.out)]⟩ ∧
    (⟨⟨0, some 5, 0, []⟩, [(5, PC.out)]⟩ : Cfg).rsm.writerThreadId = some 5 ∧
    pcOf [(5, PC.out)] 5 = PC.out ∧
    (⟨⟨0, some 5, 0, []⟩, [(5, PC.out)]⟩ : Cfg).rsm.writersOwnership = 0 := by
  refine ⟨?_, rfl, rfl, rfl⟩
  refine Trace.cons (Step.lockAnnounce 5 initCfg rfl (by decide) rfl) ?_
  refine Trace.cons
    (Step.lockClaim 5 ⟨⟨1, none, 1, []⟩, [(5, PC.acquiring)]⟩ rfl rfl) ?_
  refine Trace.cons
    (Step.lockComplete 5 ⟨⟨1, some 5, 1, []⟩, [(5, PC.draining)]⟩ rfl rfl) ?_
  refine Trace.cons
    (Step.unlockSharedWriter 5 ⟨⟨0, some 5, 1, []⟩, [(5, PC.out)]⟩ rfl rfl) ?_
  exact Trace.nil _

theorem try_lock_spec_witness :
    RecursiveSharedMutex.try_lock 4 RecursiveSharedMutex.init =
      (true, ⟨0, some 4, 1, []⟩) := by
  have h := (try_lock_spec 4 RecursiveSharedMutex.init).2.2.1
    (by decide) rfl rfl
  exact h

/-- Control points after threads `0 … n-1` have each executed the
waiting-writer increment of `lock()` (most recent first). -/
def accPcs : Nat → List (Nat × PC)
  | 0 => []
  | n + 1 => (n, PC.acquiring) :: accPcs n

/-- Labels of the interleaving in which threads `0 … n-1` execute the
waiting-writer increment of `lock()` in order. -/
def announceLabels (n : Nat) : List (Nat × Act) :=
  (List.range n).map (fun i => (i, Act.lockAnnounce))

theorem accPcs_lookup_ge (n m : Nat) : n ≤ m → alookup m (accPcs n) = none := by
  induction n with
  | zero => intro _; rfl
  | succ k ih =>
    intro h
    show (if k = m then some PC.acquiring else alookup m (accPcs k)) = none
    rw [if_neg (by omega : ¬ k = m)]
    exact ih (by omega)

theorem accPcs_lookup_lt (n m : Nat) : m < n →
    alookup m (accPcs n) = some PC.acquiring := by
  induction n with
  | zero => intro h; omega
  | succ k ih =>
    intro h
    show (if k = m then some PC.acquiring else alookup m (accPcs k)) =
      some PC.acquiring
    by_cases hk : k = m
    · rw [if_pos hk]
    · rw [if_neg hk]
      exact ih (by omega)

theorem aerase_accPcs (n m : Nat) : n ≤ m → aerase m (accPcs n) = accPcs n := by
  induction n with
  | zero => intro _; rfl
  | succ k ih =>
    intro h
    show (if k = m then aerase m (accPcs k)
      else (k, PC.acquiring) :: aerase m (accPcs k)) = (k, PC.acquiring) :: accPcs k
    rw [if_neg (by omega : ¬ k = m), ih (by omega)]

theorem trace_snoc {c c' : Cfg} {ls : List (Nat × Act)}
    (ht : Trace c ls c') {t : Nat} {a : Act} {c'' : Cfg}
    (hs : Step t a c' c'') : Trace c (ls ++ [(t, a)]) c'' := by
  induction ht with
  | nil => exact Trace.cons hs (Trace.nil _)
  | cons hstep ht2 ih => exact Trace.cons hstep (ih hs)

theorem announceLabels_succ (n : Nat) :
    announceLabels (n + 1) = announceLabels n ++ [(n, Act.lockAnnounce)] := by
  simp [announceLabels, List.range_succ]

theorem announce_trace (n : Nat) :
    Trace initCfg (announceLabels n) ⟨⟨n % U32, none, 1, []⟩, accPcs n⟩ := by
  induction n with
  | zero => exact Trace.nil initCfg
  | succ n ih =>
    have hpc : pcOf (accPcs n) n = PC.out := by
      rw [pcOf, accPcs_lookup_ge n n (Nat.le_refl n)]
      rfl
    have hstep := Step.lockAnnounce n ⟨⟨n % U32, none, 1, []⟩, accPcs n⟩
      hpc (by simp) rfl
    have hstep2 : Step n Act.lockAnnounce
        ⟨⟨n % U32, none, 1, []⟩, accPcs n⟩
        ⟨⟨inc32 (n % U32), none, 1, []⟩, setPC n PC.acquiring (accPcs n)⟩ :=
      hstep
    have hcfg : (⟨⟨inc32 (n % U32), none, 1, []⟩,
        setPC n PC.acquiring (accPcs n)⟩ : Cfg) =
        ⟨⟨(n + 1) % U32, none, 1, []⟩, accPcs (n + 1)⟩ := by
      rw [setPC, aerase_accPcs n n (Nat.le_refl n)]
      have e : inc32 (n % U32) = (n + 1) % U32 := by
        rw [inc32, U32_eq]
        omega
      rw [e]
      rfl
    rw [announceLabels_succ]
    exact trace_snoc ih (hcfg ▸ hstep2)

/-- Claim C2 counterexample: the unbounded claim fails once the
`uint32_t` waiting-writer counter wraps.  After `2 ^ 32` distinct
threads each execute the waiting-writer increment of `lock()` (all of
them still mid-acquisition, none has completed), the counter has wrapped
back to `0`; the admission loop of `lock_shared()` then passes its
check, and thread `2 ^ 32`, which holds no prior ownership, is granted a
new reader-set entry at depth `1` even though thread `0` incremented the
waiting-writer count and its acquisition has not completed. -/
theorem writer_preference_wrap_cex :
    Reachable ⟨⟨0, none, 1, []⟩,
      (2 ^ 32, PC.wantShared) :: accPcs (2 ^ 32)⟩ ∧
    Step (2 ^ 32) Act.sharedGrant
      ⟨⟨0, none, 1, []⟩, (2 ^ 32, PC.wantShared) :: accPcs (2 ^ 32)⟩
      ⟨⟨0, none, 1, [(2 ^ 32, 1)]⟩, (2 ^ 32, PC.out) :: accPcs (2 ^ 32)⟩ ∧
    alookup (2 ^ 32)
      (⟨⟨0, none, 1, []⟩, (2 ^ 32, PC.wantShared) :: accPcs (2 ^ 32)⟩ :
        Cfg).rsm.readersOwnership = none ∧
    alookup (2 ^ 32)
      (⟨⟨0, none, 1, [(2 ^ 32, 1)]⟩, (2 ^ 32, PC.out) :: accPcs (2 ^ 32)⟩ :
        Cfg).rsm.readersOwnership ≠ none ∧
    (pcOf ((2 ^ 32, PC.wantShared) :: accPcs (2 ^ 32)) 0).midAcq = true := by
  have htr := announce_trace (2 ^ 32)
  have hmod : (2 ^ 32) % U32 = 0 := by
    rw [U32_eq]
    norm_num
  rw [hmod] at htr
  have hpcW : pcOf (accPcs (2 ^ 32)) (2 ^ 32) = PC.out := by
    rw [pcOf, accPcs_lookup_ge (2 ^ 32) (2 ^ 32) (Nat.le_refl _)]
    rfl
  have hsA : Step (2 ^ 32) Act.sharedAnnounce
      ⟨⟨0, none, 1, []⟩, accPcs (2 ^ 32)⟩
      ⟨⟨0, none, 1, []⟩, setPC (2 ^ 32) PC.wantShared (accPcs (2 ^ 32))⟩ :=
    Step.sharedAnnounce (2 ^ 32) ⟨⟨0, none, 1, []⟩, accPcs (2 ^ 32)⟩
      hpcW (by simp) rfl
  have hcfgA : (⟨⟨0, none, 1, []⟩,
      setPC (2 ^ 32) PC.wantShared (accPcs (2 ^ 32))⟩ : Cfg) =
      ⟨⟨0, none, 1, []⟩, (2 ^ 32, PC.wantShared) :: accPcs (2 ^ 32)⟩ := by
    rw [setPC, aerase_accPcs (2 ^ 32) (2 ^ 32) (Nat.le_refl _)]
  have htr2 := trace_snoc htr (hcfgA ▸ hsA)
  refine ⟨⟨_, htr2⟩, ?_, rfl, by simp [alookup], ?_⟩
  · have hpcW2 : pcOf ((2 ^ 32, PC.wantShared) :: accPcs (2 ^ 32)) (2 ^ 32) =
        PC.wantShared := by
      show ((if (2 ^ 32 : Nat) = 2 ^ 32 then some PC.wantShared
        else alookup (2 ^ 32) (accPcs (2 ^ 32))).getD PC.out) = PC.wantShared
      rw [if_pos rfl]
      rfl
    have hsG : Step (2 ^ 32) Act.sharedGrant
        ⟨⟨0, none, 1, []⟩, (2 ^ 32, PC.wantShared) :: accPcs (2 ^ 32)⟩
        ⟨⟨0, none, 1, [(2 ^ 32, 1)]⟩,
          setPC (2 ^ 32) PC.out ((2 ^ 32, PC.wantShared) :: accPcs (2 ^ 32))⟩ :=
      Step.sharedGrant (2 ^ 32)
        ⟨⟨0, none, 1, []⟩, (2 ^ 32, PC.wantShared) :: accPcs (2 ^ 32)⟩
        hpcW2 rfl rfl
    have herase : aerase (2 ^ 32) ((2 ^ 32, PC.wantShared) :: accPcs (2 ^ 32)) =
        accPcs (2 ^ 32) := by
      show (if (2 ^ 32 : Nat) = 2 ^ 32 then aerase (2 ^ 32) (accPcs (2 ^ 32))
        else (2 ^ 32, PC.wantShared) :: aerase (2 ^ 32) (accPcs (2 ^ 32))) =
        accPcs (2 ^ 32)
      rw [if_pos rfl, aerase_accPcs (2 ^ 32) (2 ^ 32) (Nat.le_refl _)]
    have hcfgG : (⟨⟨0, none, 1, [(2 ^ 32, 1)]⟩,
        setPC (2 ^ 32) PC.out ((2 ^ 32, PC.wantShared) :: accPcs (2 ^ 32))⟩ :
          Cfg) =
        ⟨⟨0, none, 1, [(2 ^ 32, 1)]⟩, (2 ^ 32, PC.out) :: accPcs (2 ^ 32)⟩ := by
      rw [setPC, herase]
    exact hcfgG ▸ hsG
  · have h0 : alookup 0 ((2 ^ 32, PC.wantShared) :: accPcs (2 ^ 32)) =
        some PC.acquiring := by
      show (if (2 ^ 32 : Nat) = 0 then some PC.wantShared
        else alookup 0 (accPcs (2 ^ 32))) = some PC.acquiring
      rw [if_neg (by norm_num), accPcs_lookup_lt (2 ^ 32) 0 (by norm_num)]
    rw [pcOf, h0]
    rfl
